import Mathlib

/-!
Verification development for the capability-extraction engine of the
`github-mcp-scraper` repository.  The definitions below are a shallow
embedding of `mcp_scraper/tool_extractor_fixed.py` (and the data model of
`mcp_scraper/models.py`): pure Python functions become Lean functions over
`List Char` / `String`, Python floats become `ℚ`, the regex patterns of the
source are embedded as the deterministic scanners they denote, and the
network-facing pieces (the GitHub contents API, README retrieval) become
explicit oracle parameters.
-/

namespace MCPScraper

/-! ## Data model (`models.py`)

Only the fields the extractor reads or writes are embedded; the remaining
metadata fields of `MCPServer` (urls, stats, timestamps, ...) never
influence the extraction logic.  The extraction log is embedded as a list
of tagged entries, one constructor per `append` site in
`tool_extractor_fixed.py`, instead of formatted strings. -/

/-- `ToolParameter` of `models.py`. -/
structure ToolParameter where
  name : String
  type : String
  description : Option String
  required : Bool
deriving DecidableEq, Repr

/-- `MCPTool` of `models.py` (the `examples` field is never touched by the
extractor and is omitted). -/
structure MCPTool where
  name : String
  description : Option String
  parameters : List ToolParameter
deriving DecidableEq, Repr

/-- `MCPPrompt` of `models.py`. -/
structure MCPPrompt where
  name : String
  description : Option String
  arguments : List ToolParameter
deriving DecidableEq, Repr

/-- `MCPResource` of `models.py`. -/
structure MCPResource where
  name : String
  description : Option String
  uri : Option String
  mime_type : Option String
deriving DecidableEq, Repr

/-- One entry of the extraction log.  Each constructor corresponds to one
`extraction_log.append(...)` site in `tool_extractor_fixed.py`:
`extractedFrom` to line 113, `errorParsing` to line 121, `confidenceLine`
to line 129 and `readmeFallback` to line 814.  No other code appends to
the extraction log.  The confidence line's two-decimal formatted score
text is not modelled (no claim depends on it); the score value itself is
the subject of `calcConfidence` below. -/
inductive LogEntry where
  | extractedFrom (path : String) (tools prompts resources : ℕ)
  | errorParsing (path : String) (msg : String)
  | confidenceLine
  | readmeFallback (count : ℕ)
deriving DecidableEq, Repr

/-- The extraction-relevant projection of `MCPServer` of `models.py`. -/
structure Server where
  tools : List MCPTool
  prompts : List MCPPrompt
  resources : List MCPResource
  error_message : Option String
  extraction_log : Option (List LogEntry)
deriving DecidableEq, Repr

/-! ## Extraction confidence scorer (`_calculate_extraction_confidence`,
lines 862-889)

The Python code accumulates `confidence` through four independent
conditional additions, multiplies by `0.7` when `server.error_message` is
truthy, and finally clamps with `min(1.0, ...)`.  Python truthiness of an
`Optional[str]` is `False` exactly on `None` and on the empty string. -/

/-- Python truthiness of an `Optional[str]` value. -/
def strTruthy : Option String → Bool
  | none => false
  | some s => !(s == "")

/-- `sum(1 for tool in server.tools if tool.description)` (line 876). -/
def countDescribed (tools : List MCPTool) : ℕ :=
  tools.countP (fun t => strTruthy t.description)

/-- `if server.tools or server.prompts or server.resources` (line 867). -/
def nonEmptyServer (s : Server) : Bool :=
  !s.tools.isEmpty || !s.prompts.isEmpty || !s.resources.isEmpty

/-- `if server.error_message` (line 886). -/
def errorTruthy (s : Server) : Bool := strTruthy s.error_message

/-- Python's two-argument `min` on rationals (kept as an executable
`if` so that concrete scores evaluate inside the kernel). -/
def qmin (a b : ℚ) : ℚ := if a ≤ b then a else b

theorem qmin_eq_min (a b : ℚ) : qmin a b = min a b := by
  unfold qmin; rw [min_def]

/-- Base addend: `confidence += 0.5` when any capability was found
(lines 866-868). -/
def baseScore (s : Server) : ℚ := if nonEmptyServer s then 1/2 else 0

/-- Tool-count addend: `confidence += min(0.3, tool_count * 0.1)` when
`tool_count > 0` (lines 871-873). -/
def toolScore (n : ℕ) : ℚ := if 0 < n then qmin (3/10) (n * (1/10)) else 0

/-- Description addend: `confidence += (described / tool_count) * 0.2` when
`tool_count > 0` (lines 876-879). -/
def descScore (n d : ℕ) : ℚ := if 0 < n then ((d : ℚ) / n) * (1/5) else 0

/-- File addend: `confidence += min(0.1, files_processed * 0.02)` when
`files_processed > 1` (lines 882-883). -/
def fileScore (fp : ℕ) : ℚ := if 1 < fp then qmin (1/10) (fp * (1/50)) else 0

/-- The accumulated confidence before the error penalty and the final
clamp: the sum of the four conditional addends of lines 864-883. -/
def rawConfidence (s : Server) (fp : ℕ) : ℚ :=
  baseScore s + toolScore s.tools.length
    + descScore s.tools.length (countDescribed s.tools) + fileScore fp

/-- `_calculate_extraction_confidence` (lines 862-889): the raw sum, the
`*= 0.7` error penalty of lines 886-887, then `min(1.0, confidence)`. -/
def calcConfidence (s : Server) (fp : ℕ) : ℚ :=
  qmin 1 (if errorTruthy s then rawConfidence s fp * (7/10) else rawConfidence s fp)

theorem calcConfidence_eq_min (s : Server) (fp : ℕ) :
    calcConfidence s fp =
      min 1 (if errorTruthy s then rawConfidence s fp * (7/10) else rawConfidence s fp) := by
  unfold calcConfidence; rw [qmin_eq_min]

/-- A server differing only in having no recorded error. -/
def clearError (s : Server) : Server :=
  ⟨s.tools, s.prompts, s.resources, none, s.extraction_log⟩

theorem baseScore_nonneg (s : Server) : 0 ≤ baseScore s := by
  unfold baseScore; split <;> norm_num

theorem toolScore_nonneg (n : ℕ) : 0 ≤ toolScore n := by
  unfold toolScore; split
  · rw [qmin_eq_min]; exact le_min (by norm_num) (by positivity)
  · exact le_refl 0

theorem descScore_nonneg (n d : ℕ) : 0 ≤ descScore n d := by
  unfold descScore; split
  · positivity
  · exact le_refl 0

theorem fileScore_nonneg (fp : ℕ) : 0 ≤ fileScore fp := by
  unfold fileScore; split
  · rw [qmin_eq_min]; exact le_min (by norm_num) (by positivity)
  · exact le_refl 0

theorem rawConfidence_nonneg (s : Server) (fp : ℕ) : 0 ≤ rawConfidence s fp := by
  unfold rawConfidence
  have h1 := baseScore_nonneg s
  have h2 := toolScore_nonneg s.tools.length
  have h3 := descScore_nonneg s.tools.length (countDescribed s.tools)
  have h4 := fileScore_nonneg fp
  linarith

theorem rawConfidence_clearError (s : Server) (fp : ℕ) :
    rawConfidence (clearError s) fp = rawConfidence s fp := rfl

theorem errorTruthy_clearError (s : Server) : errorTruthy (clearError s) = false := rfl

/-- A tool carrying a description, for concrete scorer inputs. -/
def descTool : MCPTool := ⟨"a", some "d", []⟩

/-- Three described tools, five files processed, an error recorded. -/
def cexServerErr : Server := ⟨[descTool, descTool, descTool], [], [], some "boom", none⟩

/-- The otherwise-identical error-free server. -/
def cexServerOk : Server := ⟨[descTool, descTool, descTool], [], [], none, none⟩

/-- C2 (counterexample): with three described tools and five processed
files the error-free raw sum is `1.1`, clamped to `1`, while the
with-error score is `min(1, 1.1 * 0.7) = 0.77 ≠ 0.7 * 1`.  So the
with-error confidence is not `0.7×` the otherwise-identical error-free
score for every input combination. -/
theorem C2_counterexample :
    calcConfidence cexServerErr 5 = 77/100 ∧ calcConfidence cexServerOk 5 = 1 ∧
      ¬ calcConfidence cexServerErr 5 = (7/10) * calcConfidence cexServerOk 5 := by
  have hraw : rawConfidence cexServerErr 5 = 11/10 := by
    have hc : countDescribed cexServerErr.tools = 3 := rfl
    have hl : cexServerErr.tools.length = 3 := rfl
    have hne : nonEmptyServer cexServerErr = true := rfl
    norm_num [rawConfidence, baseScore, toolScore, descScore, fileScore,
      hc, hl, hne, qmin]
  have hok : cexServerOk = clearError cexServerErr := rfl
  have he : errorTruthy cexServerErr = true := rfl
  have h1 : calcConfidence cexServerErr 5 = 77/100 := by
    norm_num [calcConfidence, qmin, he, hraw]
  have h2 : calcConfidence cexServerOk 5 = 1 := by
    rw [hok]
    norm_num [calcConfidence, qmin, errorTruthy_clearError,
      rawConfidence_clearError, hraw]
  rw [h1, h2]
  norm_num

/-- C2 (amended): whenever the error-free raw sum does not exceed `1`
(so the final clamp is inactive on the error-free side), the confidence
computed with a recorded error equals exactly `0.7` times the confidence
of the otherwise-identical error-free server. -/
theorem C2_error_penalty_amended (s : Server) (fp : ℕ)
    (herr : errorTruthy s = true) (hle : rawConfidence s fp ≤ 1) :
    calcConfidence s fp = (7/10) * calcConfidence (clearError s) fp := by
  have h0 := rawConfidence_nonneg s fp
  have h7 : rawConfidence s fp * (7/10) ≤ 1 := by nlinarith
  rw [calcConfidence_eq_min, calcConfidence_eq_min,
    herr, errorTruthy_clearError, rawConfidence_clearError,
    if_pos rfl, if_neg (by simp : ¬ (false = true)),
    min_eq_right h7, min_eq_right hle]
  ring

/-- C2 (witness): one undescribed tool, no files bonus, an error recorded:
the raw error-free sum is `0.6 ≤ 1` and the with-error score is exactly
`0.7 * 0.6 = 0.42`. -/
theorem C2_witness :
    calcConfidence ⟨[⟨"t", none, []⟩], [], [], some "x", none⟩ 0 =
      (7/10) * calcConfidence (clearError ⟨[⟨"t", none, []⟩], [], [], some "x", none⟩) 0 :=
  C2_error_penalty_amended ⟨[⟨"t", none, []⟩], [], [], some "x", none⟩ 0 rfl
    (by norm_num [rawConfidence, baseScore, toolScore, descScore, fileScore,
      qmin, show countDescribed [(⟨"t", none, []⟩ : MCPTool)] = 0 from rfl,
      show nonEmptyServer ⟨[⟨"t", none, []⟩], [], [], some "x", none⟩ = true from rfl])

theorem toolDesc_mono (n1 n2 d : ℕ) (hd : d ≤ n1) (h12 : n1 ≤ n2) (h2 : n2 ≤ 3) :
    toolScore n1 + descScore n1 d ≤ toolScore n2 + descScore n2 d := by
  interval_cases n2 <;> interval_cases n1 <;> interval_cases d <;>
    norm_num [toolScore, descScore, qmin]

theorem baseScore_congr {s1 s2 : Server} (h : nonEmptyServer s1 = nonEmptyServer s2) :
    baseScore s1 = baseScore s2 := by unfold baseScore; rw [h]

/-- C7: holding fixed the described-tool count, the non-emptiness of the
result, the files-processed count and the error flag, the confidence is
non-decreasing in the tool count up to the `0.3` cap (tool count `≤ 3`),
and every computed confidence lies in `[0, 1]`. -/
theorem C7_confidence_monotone_bounded :
    (∀ s1 s2 : Server, ∀ fp : ℕ,
        countDescribed s1.tools = countDescribed s2.tools →
        nonEmptyServer s1 = nonEmptyServer s2 →
        errorTruthy s1 = errorTruthy s2 →
        s1.tools.length ≤ s2.tools.length → s2.tools.length ≤ 3 →
        calcConfidence s1 fp ≤ calcConfidence s2 fp) ∧
    (∀ s : Server, ∀ fp : ℕ, 0 ≤ calcConfidence s fp ∧ calcConfidence s fp ≤ 1) := by
  constructor
  · intro s1 s2 fp hdesc hne herr hlen hcap
    have hdn : countDescribed s1.tools ≤ s1.tools.length := List.countP_le_length _
    have hraw : rawConfidence s1 fp ≤ rawConfidence s2 fp := by
      unfold rawConfidence
      rw [baseScore_congr hne, ← hdesc]
      have := toolDesc_mono s1.tools.length s2.tools.length
        (countDescribed s1.tools) hdn hlen hcap
      linarith
    rw [calcConfidence_eq_min, calcConfidence_eq_min, herr]
    cases h : errorTruthy s2 with
    | false => exact min_le_min (le_refl 1) hraw
    | true =>
        exact min_le_min (le_refl 1)
          (mul_le_mul_of_nonneg_right hraw (by norm_num))
  · intro s fp
    rw [calcConfidence_eq_min]
    constructor
    · refine le_min (by norm_num) ?_
      have h0 := rawConfidence_nonneg s fp
      split
      · nlinarith
      · exact h0
    · exact min_le_left _ _

/-- C7 (witness): the monotonicity applied to one undescribed tool versus
two undescribed tools, and the bounds applied to the two-tool server. -/
theorem C7_witness :
    calcConfidence ⟨[⟨"t", none, []⟩], [], [], none, none⟩ 0 ≤
        calcConfidence ⟨[⟨"t", none, []⟩, ⟨"u", none, []⟩], [], [], none, none⟩ 0 ∧
      0 ≤ calcConfidence ⟨[⟨"t", none, []⟩, ⟨"u", none, []⟩], [], [], none, none⟩ 0 ∧
      calcConfidence ⟨[⟨"t", none, []⟩, ⟨"u", none, []⟩], [], [], none, none⟩ 0 ≤ 1 :=
  ⟨C7_confidence_monotone_bounded.1 ⟨[⟨"t", none, []⟩], [], [], none, none⟩
      ⟨[⟨"t", none, []⟩, ⟨"u", none, []⟩], [], [], none, none⟩ 0
      (by decide) (by decide) (by decide) (by decide) (by decide),
    (C7_confidence_monotone_bounded.2 ⟨[⟨"t", none, []⟩, ⟨"u", none, []⟩], [], [], none, none⟩ 0).1,
    (C7_confidence_monotone_bounded.2 ⟨[⟨"t", none, []⟩, ⟨"u", none, []⟩], [], [], none, none⟩ 0).2⟩

/-! ## Regex scanners

The source recognises declarations with `re.findall`/`re.search` over
fixed patterns.  Each pattern used by the claims is embedded as the
deterministic scanner it denotes: every quantifier in those patterns is
followed either by a token disjoint from the quantified class (so greedy
maximal munch is exact) or by an optional group whose failure is
tolerated, with the one exception (`\s*` before a required `\n` in the
markdown section header, and `[:\s-]+` before `[^\n]+`) handled by the
explicit backtracking helpers below. -/

/-- Python `\s` (ASCII range): space, `\t`, `\n`, `\v`, `\f`, `\r`. -/
def isSpaceChar (c : Char) : Bool := c == ' ' || (9 ≤ c.toNat && c.toNat ≤ 13)

/-- Python `\w` (ASCII range): letters, digits, underscore. -/
def isWordChar (c : Char) : Bool := c.isAlphanum || c == '_'

/-- A single or double quote, the class `["\']`. -/
def isQuoteChar (c : Char) : Bool := c == '"' || c == '\x27'

/-- Match a literal prefix, returning the remainder. -/
def litP : List Char → List Char → Option (List Char)
  | [], cs => some cs
  | _ :: _, [] => none
  | p :: ps, c :: cs => if p == c then litP ps cs else none

/-- Match one character satisfying `p`, returning the remainder. -/
def chP (p : Char → Bool) : List Char → Option (List Char)
  | [] => none
  | c :: cs => if p c then some cs else none

/-- Greedy `X+` for a character class: at least one character, maximal run. -/
def take1 (p : Char → Bool) : List Char → Option (List Char × List Char)
  | [] => none
  | c :: cs => if p c then some (c :: cs.takeWhile p, cs.dropWhile p) else none

/-- Greedy `\s*`. -/
def skipSpaces (cs : List Char) : List Char := cs.dropWhile isSpaceChar

/-- `re.findall` driving loop: try the matcher at each position from left
to right; on success record the capture and continue at the match end.
All embedded matchers consume at least one character on success, so fuel
`length + 1` recovers the exact Python behaviour. -/
def scanAll {α : Type} (m : List Char → Option (α × List Char)) :
    ℕ → List Char → List α
  | 0, _ => []
  | _ + 1, [] => []
  | f + 1, c :: cs =>
    match m (c :: cs) with
    | some ar => ar.1 :: scanAll m f ar.2
    | none => scanAll m f cs

/-- `re.search` driving loop: first match, scanning left to right. -/
def searchFirst {α : Type} (m : List Char → Option α) : List Char → Option α
  | [] => m []
  | c :: cs =>
    match m (c :: cs) with
    | some a => some a
    | none => searchFirst m cs

theorem take1_fst_ne_nil {p : Char → Bool} {cs : List Char}
    {q : List Char × List Char} (h : take1 p cs = some q) : q.1 ≠ [] := by
  cases cs with
  | nil => simp [take1] at h
  | cons c cs' =>
    simp only [take1, Option.ite_none_right_eq_some, Option.some.injEq] at h
    obtain ⟨hp, h⟩ := h
    subst h
    simp

theorem scanAll_eq_some {α : Type} {m : List Char → Option (α × List Char)}
    {f : ℕ} {c : Char} {cs : List Char} {ar : α × List Char}
    (h : m (c :: cs) = some ar) :
    scanAll m (f+1) (c :: cs) = ar.1 :: scanAll m f ar.2 := by
  simp [scanAll, h]

theorem scanAll_eq_none {α : Type} {m : List Char → Option (α × List Char)}
    {f : ℕ} {c : Char} {cs : List Char} (h : m (c :: cs) = none) :
    scanAll m (f+1) (c :: cs) = scanAll m f cs := by
  simp [scanAll, h]

theorem scanAll_forall {α : Type} (m : List Char → Option (α × List Char))
    (P : α → Prop) (hm : ∀ cs q, m cs = some q → P q.1) :
    ∀ f cs, ∀ a ∈ scanAll m f cs, P a := by
  intro f
  induction f with
  | zero => intro cs a ha; simp [scanAll] at ha
  | succ f ih =>
    intro cs a ha
    cases cs with
    | nil => simp [scanAll] at ha
    | cons c cs' =>
      cases h : m (c :: cs') with
      | none => rw [scanAll_eq_none h] at ha; exact ih _ a ha
      | some ar =>
        rw [scanAll_eq_some h] at ha
        rcases List.mem_cons.mp ha with rfl | ha2
        · exact hm _ _ h
        · exact ih _ a ha2

/-! ## Python parser (`_parse_python_content`, lines 190-240)

Patterns 1-3 are the decorator patterns
`@DECOR\s*(?:\([^)]*\))?\s*(?:async\s+)?def\s+(\w+)\s*\([^)]*\):\s*(?:\n\s*"""([^"]*?)""")?`
(pattern 1, `@mcp\.tool\(\)`, has no optional argument-parens group).
In these patterns the doc-string group can never participate in a match:
the greedy `\s*` after the colon consumes every whitespace character
including any newline, the optional group then needs a `\n` at a
non-whitespace (or end) position and fails, and a failed optional group
matches empty.  Hence the captured description is always the empty
string, which is falsy, so the appended tool's `description` is `None`.
Pattern 4 is `server\.add_tool\s*\(\s*["\']([^"\']+)["\']` and stores
`description=None` directly. -/

/-- The optional group `(?:\([^)]*\))?`: if a `(` follows, consume the
maximal run of non-`)` characters and a closing `)`; if the group cannot
match it matches empty. -/
def skipOptParens (cs : List Char) : List Char :=
  match cs with
  | '(' :: rest =>
    match rest.dropWhile (fun c => !(c == ')')) with
    | ')' :: r3 => r3
    | _ => cs
  | _ => cs

/-- The optional group `(?:async\s+)?`. -/
def skipOptAsync (cs : List Char) : List Char :=
  match litP ("async".toList) cs with
  | some rest =>
    match take1 isSpaceChar rest with
    | some r => r.2
    | none => cs
  | none => cs

/-- One decorator pattern: decorator literal, optional argument parens
(patterns 2 and 3 only), optional `async`, `def`, the captured `\w+`
name, the parameter list `\([^)]*\)`, a colon, trailing whitespace. -/
def matchDecorDef (decor : List Char) (allowParens : Bool) (cs0 : List Char) :
    Option (List Char × List Char) :=
  Option.bind (litP decor cs0) (fun cs1 =>
  Option.bind (litP ("def".toList)
      (skipOptAsync (if allowParens then skipSpaces (skipOptParens (skipSpaces cs1))
        else skipSpaces cs1))) (fun cs2 =>
  Option.bind (take1 isSpaceChar cs2) (fun r1 =>
  Option.bind (take1 isWordChar r1.2) (fun r2 =>
  Option.bind (chP (fun c => c == '(') (skipSpaces r2.2)) (fun cs3 =>
  Option.bind (chP (fun c => c == ')') (cs3.dropWhile (fun c => !(c == ')')))) (fun cs4 =>
  Option.bind (chP (fun c => c == ':') cs4) (fun cs5 =>
  some (r2.1, skipSpaces cs5))))))))

/-- Pattern 4: `server\.add_tool\s*\(\s*["\']([^"\']+)["\']`. -/
def matchAddTool (cs0 : List Char) : Option (List Char × List Char) :=
  Option.bind (litP ("server.add_tool".toList) cs0) (fun cs1 =>
  Option.bind (chP (fun c => c == '(') (skipSpaces cs1)) (fun cs2 =>
  Option.bind (chP isQuoteChar (skipSpaces cs2)) (fun cs3 =>
  Option.bind (take1 (fun c => !(isQuoteChar c)) cs3) (fun r =>
  Option.bind (chP isQuoteChar r.2) (fun cs4 =>
  some (r.1, cs4))))))

/-- A tool as appended by `_parse_python_content`: captured name, `None`
description (see the doc-string note above), empty parameter list. -/
def mkPyTool (n : List Char) : MCPTool := ⟨⟨n⟩, none, []⟩

/-- `_parse_python_content` (lines 190-240): the four `re.findall`
pattern results, in source order, each appended as a parameterless tool;
no prompts or resources are ever produced. -/
def parsePythonContent (content : String) :
    List MCPTool × List MCPPrompt × List MCPResource :=
  let cs := content.toList
  let f := cs.length + 1
  let p1 := scanAll (matchDecorDef ("@mcp.tool()".toList) false) f cs
  let p2 := scanAll (matchDecorDef ("@server.tool".toList) true) f cs
  let p3 := scanAll (matchDecorDef ("@tool".toList) true) f cs
  let p4 := scanAll matchAddTool f cs
  (p1.map mkPyTool ++ p2.map mkPyTool ++ p3.map mkPyTool ++ p4.map mkPyTool, [], [])

theorem matchDecorDef_fst_ne_nil {decor : List Char} {b : Bool} {cs : List Char}
    {q : List Char × List Char} (h : matchDecorDef decor b cs = some q) : q.1 ≠ [] := by
  simp only [matchDecorDef, Option.bind_eq_some, Option.some.injEq] at h
  obtain ⟨c1, h1, c2, h2, r1, hr1, r2, hr2, c3, h3, c4, h4, c5, h5, heq⟩ := h
  have := take1_fst_ne_nil hr2
  rw [← heq]
  simpa using this

theorem matchAddTool_fst_ne_nil {cs : List Char}
    {q : List Char × List Char} (h : matchAddTool cs = some q) : q.1 ≠ [] := by
  simp only [matchAddTool, Option.bind_eq_some, Option.some.injEq] at h
  obtain ⟨c1, h1, c2, h2, c3, h3, r, hr, c4, h4, heq⟩ := h
  have := take1_fst_ne_nil hr
  rw [← heq]
  simpa using this

/-- Every tool produced by the Python parser has a non-empty name. -/
theorem parsePythonContent_names_ne (content : String) :
    ∀ t ∈ (parsePythonContent content).1, 0 < t.name.length := by
  intro t ht
  simp only [parsePythonContent, List.mem_append, List.mem_map] at ht
  have hlen : ∀ n : List Char, n ≠ [] → 0 < (mkPyTool n).name.length := by
    intro n hn
    have : (mkPyTool n).name.length = n.length := rfl
    rw [this]
    exact List.length_pos.mpr hn
  rcases ht with ((⟨n, hn, hteq⟩ | ⟨n, hn, hteq⟩) | ⟨n, hn, hteq⟩) | ⟨n, hn, hteq⟩ <;>
    subst hteq
  · exact hlen n (scanAll_forall _ (fun a => a ≠ []) (fun _ _ h => matchDecorDef_fst_ne_nil h) _ _ n hn)
  · exact hlen n (scanAll_forall _ (fun a => a ≠ []) (fun _ _ h => matchDecorDef_fst_ne_nil h) _ _ n hn)
  · exact hlen n (scanAll_forall _ (fun a => a ≠ []) (fun _ _ h => matchDecorDef_fst_ne_nil h) _ _ n hn)
  · exact hlen n (scanAll_forall _ (fun a => a ≠ []) (fun _ _ h => matchAddTool_fst_ne_nil h) _ _ n hn)

/-! ## Markdown fallback miner (`_extract_tools_from_markdown`, lines 835-860)

Section pattern `##?\s*Tools?\s*\n(.*?)(?=\n##|$)` with
`re.DOTALL | re.IGNORECASE`, then per section the three line patterns
(bullet, numbered, backtick-quoted), each filtered by
`len(name) > 2 and not name.lower() in ['tool','tools','function','method']`.
Two spots genuinely backtrack in Python and are embedded explicitly: the
greedy `\s*` before the required `\n` of the header (the engine keeps the
largest prefix of the whitespace run that still leaves a `\n`, i.e. it
consumes through the last newline of the run), and the greedy `[:\s-]+`
before `([^\n]+)` (the engine keeps the largest class run whose following
character exists and is not a newline). -/

/-- Drop through the last `'\n'` of a pure-whitespace run; `none` when the
run contains no newline. -/
def dropThroughLastNl : List Char → Option (List Char)
  | [] => none
  | c :: cs =>
    match dropThroughLastNl cs with
    | some r => some r
    | none => if c == '\n' then some cs else none

/-- The `\s*\n` of the section header. -/
def consumeHeaderGap (cs : List Char) : Option (List Char) :=
  match dropThroughLastNl (cs.takeWhile isSpaceChar) with
  | none => none
  | some tailRun => some (tailRun ++ cs.dropWhile isSpaceChar)

/-- The zero-width lookahead `(?=\n##|$)` (no `re.MULTILINE`, so `$` holds
at the end of the text or just before a final newline). -/
def stopHere : List Char → Bool
  | [] => true
  | ['\n'] => true
  | '\n' :: '#' :: '#' :: _ => true
  | _ => false

/-- The lazy `(.*?)` growing to the first position whose lookahead holds. -/
def lazyCapture : List Char → List Char × List Char
  | [] => ([], [])
  | c :: cs =>
    if stopHere (c :: cs) then ([], c :: cs)
    else ((lazyCapture cs).1.cons c, (lazyCapture cs).2)

/-- Case-insensitive literal match (`re.IGNORECASE`). -/
def litCI : List Char → List Char → Option (List Char)
  | [], cs => some cs
  | _ :: _, [] => none
  | p :: ps, c :: cs => if p.toLower == c.toLower then litCI ps cs else none

/-- An optional single character, `X?`. -/
def skipOptChar (t : Char) (cs : List Char) : List Char :=
  match cs with
  | c :: rest => if c == t then rest else cs
  | [] => cs

/-- An optional single character, case-insensitive. -/
def skipOptCharCI (t : Char) (cs : List Char) : List Char :=
  match cs with
  | c :: rest => if c.toLower == t then rest else cs
  | [] => cs

/-- The section pattern `##?\s*Tools?\s*\n(.*?)(?=\n##|$)`; the capture is
the section body. -/
def matchToolsHeader (cs0 : List Char) : Option (List Char × List Char) :=
  Option.bind (chP (fun c => c == '#') cs0) (fun cs1 =>
  Option.bind (litCI ("tool".toList) (skipSpaces (skipOptChar '#' cs1))) (fun cs4 =>
  Option.bind (consumeHeaderGap (skipOptCharCI 's' cs4)) (fun cs6 =>
  some (lazyCapture cs6))))

/-- The class `[:\s-]`. -/
def isListClassChar (c : Char) : Bool := c == ':' || isSpaceChar c || c == '-'

/-- `([^\n]+)` at the current position: at least one non-newline
character, greedy. -/
def descFrom (cs : List Char) : Option (List Char × List Char) :=
  match cs with
  | [] => none
  | c :: _ =>
    if c == '\n' then none
    else some (cs.takeWhile (fun x => !(x == '\n')), cs.dropWhile (fun x => !(x == '\n')))

/-- Backtracking of `[:\s-]+` before `([^\n]+)`: consume as much of the
remaining class run as possible (longest first) while still allowing a
non-newline description character to follow. -/
def pickDesc : List Char → List Char → Option (List Char × List Char)
  | [], rest => descFrom rest
  | d :: run3, rest =>
    match pickDesc run3 rest with
    | some r => some r
    | none => descFrom (d :: (run3 ++ rest))

/-- `[:\s-]+([^\n]+)`: at least one class character, then the description
capture. -/
def classThenDesc (cs : List Char) : Option (List Char × List Char) :=
  match cs.takeWhile isListClassChar with
  | [] => none
  | _ :: run2 => pickDesc run2 (cs.dropWhile isListClassChar)

/-- The shared tail `` \`?([\w_]+)\`?[:\s-]+([^\n]+) `` of the bullet and
numbered patterns (the class `[\w_]` equals `\w`). -/
def matchNameDesc (cs : List Char) : Option ((List Char × List Char) × List Char) :=
  Option.bind (take1 isWordChar (skipOptChar '\x60' cs)) (fun r =>
  Option.bind (classThenDesc (skipOptChar '\x60' r.2)) (fun d =>
  some ((r.1, d.1), d.2)))

/-- Line pattern 1: `[-*+]\s*\`?([\w_]+)\`?[:\s-]+([^\n]+)`. -/
def matchBulletTool (cs0 : List Char) : Option ((List Char × List Char) × List Char) :=
  Option.bind (chP (fun c => c == '-' || c == '*' || c == '+') cs0) (fun cs1 =>
  matchNameDesc (skipSpaces cs1))

/-- Line pattern 2: `\d+\.\s*\`?([\w_]+)\`?[:\s-]+([^\n]+)`. -/
def matchNumberedTool (cs0 : List Char) : Option ((List Char × List Char) × List Char) :=
  Option.bind (take1 Char.isDigit cs0) (fun r =>
  Option.bind (chP (fun c => c == '.') r.2) (fun cs1 =>
  matchNameDesc (skipSpaces cs1)))

/-- Line pattern 3: `` \`([\w_]+)\`[:\s-]+([^\n]+) `` (backticks required,
no optional backticks or leading marker). -/
def matchBacktickTool (cs0 : List Char) : Option ((List Char × List Char) × List Char) :=
  Option.bind (chP (fun c => c == '\x60') cs0) (fun cs1 =>
  Option.bind (take1 isWordChar cs1) (fun r =>
  Option.bind (chP (fun c => c == '\x60') r.2) (fun cs2 =>
  Option.bind (classThenDesc cs2) (fun d =>
  some ((r.1, d.1), d.2)))))

/-- ASCII lowercase map, Python `str.lower` on the inputs involved. -/
def lowerL (l : List Char) : List Char := l.map Char.toLower

/-- `str.lower` lifted to `String`. -/
def lowerS (s : String) : String := ⟨lowerL s.toList⟩

/-- The generic-word exclusion list of line 853. -/
def genericNames : List (List Char) :=
  ["tool".toList, "tools".toList, "function".toList, "method".toList]

/-- `len(name) > 2 and not name.lower() in [...]` (line 853). -/
def mdKeep (nd : List Char × List Char) : Bool :=
  2 < nd.1.length && !(genericNames.contains (lowerL nd.1))

/-- Python `str.strip()`. -/
def trimSpaces (l : List Char) : List Char :=
  ((l.dropWhile isSpaceChar).reverse.dropWhile isSpaceChar).reverse

/-- A tool as appended by the miner: name, stripped description, no
parameters (lines 854-858). -/
def mkMdTool (nd : List Char × List Char) : MCPTool := ⟨⟨nd.1⟩, some ⟨trimSpaces nd.2⟩, []⟩

/-- The three line patterns applied to one section, in source order. -/
def mineSection (sec : List Char) : List (List Char × List Char) :=
  scanAll matchBulletTool (sec.length+1) sec
    ++ scanAll matchNumberedTool (sec.length+1) sec
    ++ scanAll matchBacktickTool (sec.length+1) sec

/-- `_extract_tools_from_markdown` (lines 835-860). -/
def extractToolsFromMarkdown (content : String) : List MCPTool :=
  let cs := content.toList
  let secs := scanAll matchToolsHeader (cs.length+1) cs
  (secs.map (fun sec => ((mineSection sec).filter mdKeep).map mkMdTool)).flatten

theorem mem_extractToolsFromMarkdown {content : String} {t : MCPTool}
    (ht : t ∈ extractToolsFromMarkdown content) :
    ∃ nd, mdKeep nd = true ∧ t = mkMdTool nd := by
  simp only [extractToolsFromMarkdown, List.mem_flatten, List.mem_map] at ht
  obtain ⟨l, ⟨sec, hsec, rfl⟩, htl⟩ := ht
  obtain ⟨nd, hnd, rfl⟩ := List.mem_map.mp htl
  exact ⟨nd, (List.mem_filter.mp hnd).2, rfl⟩

/-- Every kept markdown candidate has a name longer than two characters
and is not one of the generic words. -/
theorem extractToolsFromMarkdown_filter {content : String} {t : MCPTool}
    (ht : t ∈ extractToolsFromMarkdown content) :
    2 < t.name.length ∧ lowerS t.name ∉ (["tool", "tools", "function", "method"] : List String) := by
  obtain ⟨nd, hkeep, rfl⟩ := mem_extractToolsFromMarkdown ht
  simp only [mdKeep, Bool.and_eq_true, decide_eq_true_eq, Bool.not_eq_true',
    List.contains, List.elem_eq_mem, decide_eq_false_iff_not] at hkeep
  obtain ⟨hlen, hmem⟩ := hkeep
  refine ⟨hlen, ?_⟩
  have hlow : lowerS (mkMdTool nd).name = ⟨lowerL nd.1⟩ := rfl
  rw [hlow]
  simp only [List.mem_cons, List.not_mem_nil, or_false, not_or]
  refine ⟨?_, ?_, ?_, ?_⟩ <;> intro h <;> apply hmem <;>
    simp only [genericNames, List.mem_cons, List.not_mem_nil, or_false]
  · left; exact congrArg String.toList h
  · right; left; exact congrArg String.toList h
  · right; right; left; exact congrArg String.toList h
  · right; right; right; exact congrArg String.toList h

/-- C8: mining documentation whose "## Tools" section body is the single
line `- create_entities: Creates new entities` yields exactly one tool,
named `create_entities`, with that description and no parameters; and
every mined candidate whose name is at most two characters long or equal
(case-insensitively) to one of the generic words `tool`, `tools`,
`function`, `method` is discarded. -/
theorem C8_markdown_miner :
    extractToolsFromMarkdown "## Tools\n- create_entities: Creates new entities" =
        [⟨"create_entities", some "Creates new entities", []⟩] ∧
      ∀ (content : String) (t : MCPTool), t ∈ extractToolsFromMarkdown content →
        2 < t.name.length ∧
          lowerS t.name ∉ (["tool", "tools", "function", "method"] : List String) :=
  ⟨by decide, fun _ _ ht => extractToolsFromMarkdown_filter ht⟩

/-- C8 (witness): the filter guarantees instantiated at the mined tool of
the documented example. -/
theorem C8_witness :
    2 < ("create_entities" : String).length ∧
      lowerS "create_entities" ∉ (["tool", "tools", "function", "method"] : List String) :=
  C8_markdown_miner.2 "## Tools\n- create_entities: Creates new entities"
    ⟨"create_entities", some "Creates new entities", []⟩ (by decide)

/-- C1 (counterexample): the Python pattern
`server\.add_tool\s*\(\s*["\']([^"\']+)["\']` accepts a quoted name made
of a single space, so extraction appends a tool whose name is
whitespace-only: `len(name.strip()) = 0`, refuting the claim that every
produced name satisfies `len(name.strip()) > 0`. -/
theorem C1_counterexample :
    (parsePythonContent "server.add_tool(\" \")").1 = [⟨" ", none, []⟩] ∧
      (trimSpaces (" " : String).toList).length = 0 :=
  ⟨by decide, by decide⟩

/-- C1 (amended): every tool name produced by the Python parser is a
non-empty string (and the Python parser never produces prompts or
resources), and every name produced by the markdown fallback miner is
non-empty (indeed longer than two characters); but names are not
guaranteed to be non-blank after stripping — whitespace-only names are
not discarded (see the counterexample). -/
theorem C1_nonempty_names_amended :
    ∀ content : String,
      (∀ t ∈ (parsePythonContent content).1, 0 < t.name.length) ∧
      (parsePythonContent content).2.1 = [] ∧
      (parsePythonContent content).2.2 = [] ∧
      (∀ t ∈ extractToolsFromMarkdown content, 0 < t.name.length) := by
  intro content
  refine ⟨parsePythonContent_names_ne content, rfl, rfl, ?_⟩
  intro t ht
  have h := (extractToolsFromMarkdown_filter ht).1
  omega

/-- C1 (witness): the amended non-emptiness applied to the whitespace-only
name of the counterexample input. -/
theorem C1_witness :
    0 < (" " : String).length ∧
      (parsePythonContent "server.add_tool(\" \")").2.1 = [] :=
  ⟨(C1_nonempty_names_amended "server.add_tool(\" \")").1 ⟨" ", none, []⟩ (by decide),
   (C1_nonempty_names_amended "server.add_tool(\" \")").2.1⟩

/-! ## Name resolver (`_extract_name_value`, lines 485-513)

`resolve(expression, sourceText)`: strip the expression; a quoted literal
is returned with all quote characters stripped from both ends; otherwise
a dotted expression is split at the first dot, the source is searched for
`enum\s+GROUP\s*\{([^}]+)\}`, the block for `MEMBER\s*=\s*["\']([^"\']+)["\']`,
and on any lookup failure the member name is returned lowercased; a plain
undotted expression is returned as is.

The source interpolates `enum_name` and `value_name` into these lookup
patterns *unescaped* (`rf'enum\s+{enum_name}...'`); the scanners below
read the interpolated name as a literal, which is exact whenever the name
is a plain identifier.  When the name contains regex metacharacters the
real code instead raises `re.error` from `re.search` — that divergence is
claim C5, witnessed through `enumSearchPattern` and `regexParenBalanced`
below. -/

/-- Python `str.strip('"\'')`-style stripping of both ends. -/
def stripChars (p : Char → Bool) (l : List Char) : List Char :=
  ((l.dropWhile p).reverse.dropWhile p).reverse

/-- `name_expr.startswith('"') or name_expr.startswith("'")`. -/
def isQuoteStart : List Char → Bool
  | [] => false
  | c :: _ => c == '"' || c == '\x27'

/-- Python `split('.', 1)`: split at the first dot; `none` when the
expression contains no dot (`if '.' in name_expr`). -/
def splitOnceDot : List Char → Option (List Char × List Char)
  | [] => none
  | c :: cs =>
    if c == '.' then some ([], cs)
    else
      match splitOnceDot cs with
      | some p => some (c :: p.1, p.2)
      | none => none

/-- `enum\s+NAME\s*\{([^}]+)\}` at one position, `NAME` read literally. -/
def matchEnumBlockAt (enumName : List Char) (cs0 : List Char) : Option (List Char) :=
  Option.bind (litP ("enum".toList) cs0) (fun cs1 =>
  Option.bind (take1 isSpaceChar cs1) (fun r1 =>
  Option.bind (litP enumName r1.2) (fun cs2 =>
  Option.bind (chP (fun c => c == '\x7b') (skipSpaces cs2)) (fun cs3 =>
  Option.bind (take1 (fun c => !(c == '\x7d')) cs3) (fun r2 =>
  Option.bind (chP (fun c => c == '\x7d') r2.2) (fun _ =>
  some r2.1))))))

/-- `re.search` for the enum block (line 499). -/
def searchEnumBlock (content enumName : List Char) : Option (List Char) :=
  searchFirst (matchEnumBlockAt enumName) content

/-- `VALUE\s*=\s*["\']([^"\']+)["\']` at one position, `VALUE` literal. -/
def matchValueAssignAt (valueName : List Char) (cs0 : List Char) : Option (List Char) :=
  Option.bind (litP valueName cs0) (fun cs1 =>
  Option.bind (chP (fun c => c == '=') (skipSpaces cs1)) (fun cs2 =>
  Option.bind (chP isQuoteChar (skipSpaces cs2)) (fun cs3 =>
  Option.bind (take1 (fun c => !(isQuoteChar c)) cs3) (fun r =>
  Option.bind (chP isQuoteChar r.2) (fun _ =>
  some r.1)))))

/-- `re.search` for the member's string assignment (line 505). -/
def searchValueAssign (block valueName : List Char) : Option (List Char) :=
  searchFirst (matchValueAssignAt valueName) block

/-- `_extract_name_value` (lines 485-513). -/
def extractNameValue (content nameExpr : List Char) : List Char :=
  let e := trimSpaces nameExpr
  if isQuoteStart e then stripChars isQuoteChar e
  else
    match splitOnceDot e with
    | some gm =>
      match searchEnumBlock content gm.1 with
      | some block =>
        match searchValueAssign block gm.2 with
        | some v => v
        | none => lowerL gm.2
      | none => lowerL gm.2
    | none => e

/-- `_extract_name_value` on `String`. -/
def extractNameValueS (content nameExpr : String) : String :=
  ⟨extractNameValue content.toList nameExpr.toList⟩

/-- A plain identifier: non-empty, word characters only. -/
def isIdent (l : List Char) : Bool := !l.isEmpty && l.all isWordChar

theorem wordChar_ge {c : Char} (h : isWordChar c = true) : 48 ≤ c.toNat := by
  simp only [isWordChar, Char.isAlphanum, Char.isAlpha, Char.isDigit, Char.isUpper,
    Char.isLower, Bool.or_eq_true, Bool.and_eq_true, decide_eq_true_eq, beq_iff_eq,
    ge_iff_le, UInt32.le_def, BitVec.le_def] at h
  rcases h with ((⟨h1, _⟩ | ⟨h1, _⟩) | ⟨h1, _⟩) | h1
  · simpa [Char.toNat] using Nat.le_trans (by norm_num) h1
  · simpa [Char.toNat] using Nat.le_trans (by norm_num) h1
  · simpa [Char.toNat] using Nat.le_trans (by norm_num) h1
  · subst h1; decide

theorem wordChar_ne_low {c d : Char} (h : isWordChar c = true) (hd : d.toNat < 48) :
    (c == d) = false := by
  simp only [beq_eq_false_iff_ne, ne_eq]
  intro he
  subst he
  have := wordChar_ge h
  omega

theorem wordChar_not_space {c : Char} (h : isWordChar c = true) : isSpaceChar c = false := by
  have h48 := wordChar_ge h
  simp only [isSpaceChar, Bool.or_eq_false_iff, Bool.and_eq_false_iff]
  refine ⟨wordChar_ne_low h (by decide), Or.inr ?_⟩
  simp only [decide_eq_false_iff_not, not_le]
  omega

theorem wordChar_not_quote {c : Char} (h : isWordChar c = true) : isQuoteChar c = false := by
  simp only [isQuoteChar, Bool.or_eq_false_iff]
  exact ⟨wordChar_ne_low h (by decide), wordChar_ne_low h (by decide)⟩

theorem dropWhile_eq_self_of_all {p : Char → Bool} {l : List Char}
    (h : ∀ c ∈ l, p c = false) : l.dropWhile p = l := by
  cases l with
  | nil => rfl
  | cons c t => simp [List.dropWhile_cons, h c (List.mem_cons_self c t)]

theorem trimSpaces_eq_self {l : List Char} (h : ∀ c ∈ l, isSpaceChar c = false) :
    trimSpaces l = l := by
  unfold trimSpaces
  rw [dropWhile_eq_self_of_all h,
    dropWhile_eq_self_of_all (fun c hc => h c (List.mem_reverse.mp hc)),
    List.reverse_reverse]

theorem splitOnceDot_append {g m : List Char} (h : ∀ c ∈ g, (c == '.') = false) :
    splitOnceDot (g ++ '.' :: m) = some (g, m) := by
  induction g with
  | nil => simp [splitOnceDot]
  | cons c g' ih =>
    simp only [List.cons_append, splitOnceDot, h c (List.mem_cons_self c g'),
      Bool.false_eq_true, if_false, List.append_eq,
      ih (fun c hc => h c (List.mem_cons_of_mem _ hc))]

theorem identDot_not_space {g m : List Char}
    (hg : ∀ c ∈ g, isWordChar c = true) (hm : ∀ c ∈ m, isWordChar c = true) :
    ∀ c ∈ g ++ '.' :: m, isSpaceChar c = false := by
  intro c hc
  rcases List.mem_append.mp hc with hcg | hcm
  · exact wordChar_not_space (hg c hcg)
  · rcases List.mem_cons.mp hcm with rfl | hcm2
    · decide
    · exact wordChar_not_space (hm c hcm2)

/-- The split and guard steps of `_extract_name_value` on an identifier
pair `GROUP.MEMBER`: the expression survives stripping, is not quoted,
and splits into exactly `GROUP` and `MEMBER`. -/
theorem extractNameValue_ident_route {s : List Char} {g m : List Char}
    (hg : isIdent g = true) (hm : isIdent m = true) :
    extractNameValue s (g ++ '.' :: m) =
      (match searchEnumBlock s g with
       | some block =>
         (match searchValueAssign block m with
          | some v => v
          | none => lowerL m)
       | none => lowerL m) := by
  simp only [isIdent, Bool.and_eq_true, Bool.not_eq_true', List.isEmpty_eq_false,
    List.all_eq_true] at hg hm
  obtain ⟨hgne, hgw⟩ := hg
  obtain ⟨hmne, hmw⟩ := hm
  have htrim : trimSpaces (g ++ '.' :: m) = g ++ '.' :: m :=
    trimSpaces_eq_self (identDot_not_space hgw hmw)
  have hq : isQuoteStart (g ++ '.' :: m) = false := by
    cases g with
    | nil => exact absurd rfl hgne
    | cons c g' =>
      simp only [List.cons_append, isQuoteStart]
      have := wordChar_not_quote (hgw c (List.mem_cons_self c g'))
      simpa [isQuoteChar] using this
  have hsplit : splitOnceDot (g ++ '.' :: m) = some (g, m) :=
    splitOnceDot_append (fun c hc => wordChar_ne_low (hgw c hc) (by decide))
  simp only [extractNameValue, htrim, hq, Bool.false_eq_true, if_false, hsplit]

/-- C4: the resolver returns quoted literals with quotes stripped, returns
the enum-assigned string when the source contains a matching enum block
with an explicit string assignment for the member, and falls back to the
lowercased member name when no matching enum definition exists. -/
theorem C4_name_resolver :
    (∀ s : String, extractNameValueS s "\"echo\"" = "echo") ∧
    (∀ (s g m : String) (blk v : List Char),
        isIdent g.toList = true → isIdent m.toList = true →
        searchEnumBlock s.toList g.toList = some blk →
        searchValueAssign blk m.toList = some v →
        extractNameValueS s (g ++ "." ++ m) = ⟨v⟩) ∧
    (∀ (s g m : String),
        isIdent g.toList = true → isIdent m.toList = true →
        searchEnumBlock s.toList g.toList = none →
        extractNameValueS s (g ++ "." ++ m) = lowerS m) := by
  have hl : ∀ g m : String, (g ++ "." ++ m).toList = g.toList ++ '.' :: m.toList := by
    intro g m
    show (g ++ "." ++ m).data = g.data ++ '.' :: m.data
    simp [String.data_append]
  refine ⟨fun _ => rfl, ?_, ?_⟩
  · intro s g m blk v hg hm hblk hval
    show (⟨extractNameValue s.toList (g ++ "." ++ m).toList⟩ : String) = ⟨v⟩
    simp only [hl, extractNameValue_ident_route hg hm, hblk, hval]
  · intro s g m hg hm hblk
    show (⟨extractNameValue s.toList (g ++ "." ++ m).toList⟩ : String) = lowerS m
    simp only [hl, extractNameValue_ident_route hg hm, hblk]
    rfl

/-- C4 (witness): the three documented resolutions, concretely. -/
theorem C4_witness :
    extractNameValueS "zzz" "\"echo\"" = "echo" ∧
      extractNameValueS "enum ToolName \x7b ECHO = \"echo_tool\" \x7d"
        ("ToolName" ++ "." ++ "ECHO") = "echo_tool" ∧
      extractNameValueS "no enums here" ("ToolName" ++ "." ++ "UNKNOWN") = lowerS "UNKNOWN" :=
  ⟨C4_name_resolver.1 "zzz",
   C4_name_resolver.2.1 "enum ToolName \x7b ECHO = \"echo_tool\" \x7d" "ToolName" "ECHO"
     (" ECHO = \"echo_tool\" ".toList) ("echo_tool".toList)
     (by decide) (by decide) (by decide) (by decide),
   C4_name_resolver.2.2 "no enums here" "ToolName" "UNKNOWN" (by decide) (by decide) (by decide)⟩

/-! ## C5: the lookup-pattern interpolation (lines 498 and 504)

`_extract_name_value` builds its enum lookup pattern by interpolating the
unsanitised first component of the name expression:
`rf'enum\s+{enum_name}\s*{{([^}}]+)}}'`.  `re.search` compiles this
pattern before scanning, and compilation of a pattern with unbalanced
unescaped groups raises `re.error` regardless of the source text, so a
name expression such as `A(.B` (reachable: the capture `([^,\s]+)` of the
tool pattern, line 299, admits parentheses) makes the resolver — and the
per-language parser invoking it — raise instead of returning normally. -/

/-- The pattern string the source builds at line 498 (`{{`/`}}` are the
f-string escapes for literal braces). -/
def enumSearchPattern (enumName : String) : String :=
  "enum\\s+" ++ enumName ++ "\\s*\x7b([^\x7d]+)\x7d"

/-- Skip a regex character class after `[`, up to the closing `]`
(escape-aware). -/
def skipCharClass : List Char → Option (List Char)
  | [] => none
  | ']' :: rest => some rest
  | '\\' :: _ :: rest => skipCharClass rest
  | _ :: rest => skipCharClass rest

/-- Group balance of a regex pattern: a necessary well-formedness
condition.  Escaped characters are skipped, character classes are opaque,
`(` opens and `)` closes a group; a pattern whose unescaped groups do not
balance is rejected by Python's `re.compile` with `re.error`. -/
def parenBalAux : ℕ → List Char → ℕ → Bool
  | 0, _, _ => false
  | _ + 1, [], d => d == 0
  | f + 1, '\\' :: rest, d =>
    match rest with
    | [] => false
    | _ :: rest2 => parenBalAux f rest2 d
  | f + 1, '[' :: rest, d =>
    match skipCharClass rest with
    | none => false
    | some rest2 => parenBalAux f rest2 d
  | f + 1, '(' :: rest, d => parenBalAux f rest (d + 1)
  | f + 1, ')' :: rest, d =>
    match d with
    | 0 => false
    | d' + 1 => parenBalAux f rest d'
  | f + 1, _ :: rest, d => parenBalAux f rest d

/-- Whether a regex pattern's unescaped groups balance. -/
def regexParenBalanced (s : String) : Bool := parenBalAux (s.toList.length + 1) s.toList 0

/-- C5 (code bug): for the name expression `A(.B` the resolver takes the
enum-lookup route (not quoted, contains a dot, first component `A(`), and
the pattern the source then hands to `re.search` has unbalanced groups,
so the real code raises `re.error` instead of returning normally.  The
sanity check: the well-formed pattern for a plain identifier balances. -/
theorem C5_injection_eval :
    isQuoteStart (trimSpaces ("A(.B" : String).toList) = false ∧
      splitOnceDot (trimSpaces ("A(.B" : String).toList) =
        some ("A(".toList, "B".toList) ∧
      regexParenBalanced (enumSearchPattern "A(") = false ∧
      regexParenBalanced (enumSearchPattern "ToolName") = true :=
  ⟨by decide, by decide, by decide, by decide⟩

/-! ## File relevance filter (`_is_relevant_file`, lines 663-687)

`filename.lower()` must end with a supported extension and contain none
of the skip patterns as a substring; both checks are on the file *name*
alone.  Python's `endswith` is suffix, `in` is substring containment;
both are embedded as boolean scanners and characterised against
Mathlib's `<:+` (suffix) and `<:+:` (infix). -/

/-- The `relevant_extensions` set (lines 665-668). -/
def relevantExtensions : List (List Char) :=
  [".py".toList, ".ts".toList, ".js".toList, ".go".toList, ".rs".toList,
   ".cs".toList, ".csx".toList, ".java".toList, ".tsx".toList, ".jsx".toList,
   ".mjs".toList, ".cjs".toList]

/-- The `skip_patterns` set (lines 671-675). -/
def skipPatterns : List (List Char) :=
  ["test".toList, "spec".toList, "__test__".toList, ".test.".toList,
   ".spec.".toList, "build".toList, "dist".toList, "node_modules".toList,
   ".git".toList, "webpack".toList, "babel".toList, "eslint".toList,
   "prettier".toList]

/-- `text.startswith(pat)`. -/
def startsWithL : List Char → List Char → Bool
  | [], _ => true
  | _ :: _, [] => false
  | a :: as, b :: bs => a == b && startsWithL as bs

/-- `pat in text` (substring containment). -/
def infixL (pat : List Char) : List Char → Bool
  | [] => pat.isEmpty
  | c :: cs => startsWithL pat (c :: cs) || infixL pat cs

/-- `text.endswith(pat)`. -/
def endsWithL (pat text : List Char) : Bool := startsWithL pat.reverse text.reverse

/-- `_is_relevant_file` (lines 663-687). -/
def isRelevantFileL (f : List Char) : Bool :=
  (relevantExtensions.any (fun e => endsWithL e (lowerL f))) &&
    !(skipPatterns.any (fun p => infixL p (lowerL f)))

/-- `_is_relevant_file` on `String`. -/
def isRelevantFile (s : String) : Bool := isRelevantFileL s.toList

theorem startsWithL_iff {p t : List Char} : startsWithL p t = true ↔ p <+: t := by
  induction p generalizing t with
  | nil => simp [startsWithL]
  | cons a as ih =>
    cases t with
    | nil => simp [startsWithL]
    | cons b bs =>
      simp [startsWithL, Bool.and_eq_true, beq_iff_eq, ih, List.cons_prefix_cons]

theorem endsWithL_iff {p t : List Char} : endsWithL p t = true ↔ p <:+ t := by
  unfold endsWithL
  rw [startsWithL_iff, List.reverse_prefix]

theorem infixL_iff {p t : List Char} : infixL p t = true ↔ p <:+: t := by
  induction t with
  | nil => simp [infixL, List.isEmpty_iff]
  | cons c cs ih =>
    simp [infixL, Bool.or_eq_true, startsWithL_iff, ih, List.infix_cons_iff]

theorem infixL_eq_false_iff {p t : List Char} : infixL p t = false ↔ ¬ p <:+: t := by
  rw [← infixL_iff]
  simp

/-- C10: a file is accepted iff its lowercased name has a supported
extension as a suffix and contains no skip pattern as a substring — and
in particular names merely containing a pattern, such as `contest.py`
(contains `test`) and `distill.ts` (contains `dist`), are excluded
despite their supported extensions. -/
theorem C10_relevant_file :
    (∀ f : List Char, isRelevantFileL f = true ↔
        ((∃ e ∈ relevantExtensions, e <:+ lowerL f) ∧
          ∀ p ∈ skipPatterns, ¬ p <:+: lowerL f)) ∧
      isRelevantFile "contest.py" = false ∧ isRelevantFile "distill.ts" = false := by
  refine ⟨?_, by decide, by decide⟩
  intro f
  simp only [isRelevantFileL, Bool.and_eq_true, List.any_eq_true, endsWithL_iff,
    Bool.not_eq_true', List.any_eq_false, infixL_eq_false_iff, infixL_iff]

/-- C10 (witness): the characterisation applied to an accepted name. -/
theorem C10_witness : isRelevantFile "main.py" = true := by
  have h2 : ∀ p ∈ skipPatterns, infixL p (lowerL ("main.py".toList)) = false := by decide
  exact (C10_relevant_file.1 ("main.py".toList)).mpr
    ⟨⟨".py".toList, by decide, endsWithL_iff.mp (by decide)⟩,
     fun p hp => infixL_eq_false_iff.mp (h2 p hp)⟩

/-! ## Per-file extraction loop (`_extract_from_github_repo`, lines 73-140)

The loop of lines 91-121 dispatches on the file's suffix to one
language parser per extension, appends the parsed collections to the
server, appends a log line only when something was extracted (line 112)
or when parsing raised (line 121), and counts processed files.  The six
language parsers are passed as a record of functions (`Except` models a
parser raising, which the loop's `try`/`except` catches); the theorems
about the loop hold for every instantiation, and the concrete witnesses
instantiate the `.py` slot with the embedded `parsePythonContent`.
Afterwards (lines 124-133): the extraction log is attached when
non-empty, the confidence line is appended to the same (aliased) list,
and the README fallback runs exactly when all three collections are
empty.  README retrieval (`_get_readme_content`) is network access,
modelled by the `readme : Option String` oracle parameter. -/

/-- One repository file as collected by the traversal (line 627-632). -/
structure FileInfo where
  name : String
  path : String
  content : String
  size : ℕ
deriving DecidableEq, Repr

/-- The result triple of one language parser. -/
abbrev ParseTriple := List MCPTool × List MCPPrompt × List MCPResource

/-- The six per-language parsers of lines 99-110, as a record; `.error`
models the parser raising an exception. -/
structure LangParsers where
  py : String → Except String ParseTriple
  tsjs : String → Except String ParseTriple
  go : String → Except String ParseTriple
  rust : String → Except String ParseTriple
  csharp : String → Except String ParseTriple
  java : String → Except String ParseTriple

/-- The final path component (after the last `/`). -/
def lastComponent (l : List Char) : List Char :=
  l.foldl (fun acc c => if c == '/' then [] else acc ++ [c]) []

/-- `Path(name).suffix`: the extension of the final component including
the dot; empty for names with no dot, a leading dot only, or a trailing
dot. -/
def pathSuffix (s : String) : String :=
  let base := lastComponent s.toList
  match base.reverse.findIdx? (fun c => c == '.') with
  | none => ""
  | some j =>
    if 1 ≤ j && j + 1 < base.length then ⟨base.drop (base.length - 1 - j)⟩ else ""

/-- The extension dispatch of lines 95-110; unhandled extensions keep the
initial empty triple of line 97. -/
def parseByExtension (P : LangParsers) (name content : String) :
    Except String ParseTriple :=
  let ext := pathSuffix name
  if ext == ".py" then P.py content
  else if ext == ".js" || ext == ".ts" then P.tsjs content
  else if ext == ".go" then P.go content
  else if ext == ".rs" then P.rust content
  else if ext == ".cs" || ext == ".csx" then P.csharp content
  else if ext == ".java" then P.java content
  else .ok ([], [], [])

/-- The loop state: the server being extended, the local
`extraction_log` list and the `files_processed` counter. -/
structure LoopAcc where
  server : Server
  log : List LogEntry
  filesProcessed : ℕ
deriving DecidableEq, Repr

/-- Lines 115-117: append the parsed collections. -/
def extendServer (s : Server) (tr : ParseTriple) : Server :=
  ⟨s.tools ++ tr.1, s.prompts ++ tr.2.1, s.resources ++ tr.2.2,
   s.error_message, s.extraction_log⟩

/-- The loop body of lines 91-121 for one file. -/
def processFile (P : LangParsers) (acc : LoopAcc) (f : FileInfo) : LoopAcc :=
  if isRelevantFile f.name then
    match parseByExtension P f.name f.content with
    | .ok tr =>
      ⟨extendServer acc.server tr,
       if tr.1.isEmpty && tr.2.1.isEmpty && tr.2.2.isEmpty then acc.log
       else acc.log ++ [.extractedFrom f.path tr.1.length tr.2.1.length tr.2.2.length],
       acc.filesProcessed + 1⟩
    | .error e => ⟨acc.server, acc.log ++ [.errorParsing f.path e], acc.filesProcessed⟩
  else acc

/-- The whole loop of lines 87-121. -/
def structuredPhase (P : LangParsers) (server : Server) (files : List FileInfo) :
    LoopAcc :=
  files.foldl (processFile P) ⟨server, [], 0⟩

/-- `_extract_from_readme_fallback` (lines 801-819): mine the README,
append the mined tools, and log the fallback when it found anything. -/
def extractFromReadmeFallback (s : Server) (readme : Option String) : Server :=
  match readme with
  | none => s
  | some rc =>
    let ts := extractToolsFromMarkdown rc
    if ts.isEmpty then
      ⟨s.tools ++ ts, s.prompts, s.resources, s.error_message, s.extraction_log⟩
    else
      ⟨s.tools ++ ts, s.prompts, s.resources, s.error_message,
       some ((s.extraction_log.getD []) ++ [.readmeFallback ts.length])⟩

/-- `_extract_from_github_repo` after the files are available
(lines 87-135): run the loop, attach the log (the confidence line of
line 129 is visible on the server exactly when the log was non-empty at
line 124, through Python list aliasing), then run the README fallback
iff all three collections are empty.  The returned boolean records
whether the fallback was invoked. -/
def extractFromGithubRepo (P : LangParsers) (server : Server)
    (files : List FileInfo) (readme : Option String) : Server × Bool :=
  let acc := structuredPhase P server files
  let s2 : Server := ⟨acc.server.tools, acc.server.prompts, acc.server.resources,
    acc.server.error_message,
    if acc.log.isEmpty then acc.server.extraction_log
    else some (acc.log ++ [.confidenceLine])⟩
  if s2.tools.isEmpty && s2.prompts.isEmpty && s2.resources.isEmpty then
    (extractFromReadmeFallback s2 readme, true)
  else (s2, false)

/-- Total number of declarations attached to a server. -/
def declCount (s : Server) : ℕ :=
  s.tools.length + s.prompts.length + s.resources.length

/-- C6 (amended): a relevant file on which every pattern of its language
fails contributes nothing: the server and the log are unchanged and only
the files-processed counter is incremented — in particular *no* log line
is appended for such a file. -/
theorem C6_silent_file_amended (P : LangParsers) (acc : LoopAcc) (f : FileInfo)
    (hrel : isRelevantFile f.name = true)
    (hparse : parseByExtension P f.name f.content = .ok ([], [], [])) :
    processFile P acc f = ⟨acc.server, acc.log, acc.filesProcessed + 1⟩ := by
  simp only [processFile, hrel, if_true, hparse]
  simp [extendServer]

/-- The dispatch instantiated with the embedded Python parser; the other
language slots never run on the `.py` inputs of the concrete theorems
below. -/
def pyOnlyParsers : LangParsers :=
  ⟨fun c => .ok (parsePythonContent c),
   fun _ => .ok ([], [], []), fun _ => .ok ([], [], []), fun _ => .ok ([], [], []),
   fun _ => .ok ([], [], []), fun _ => .ok ([], [], [])⟩

/-- A fresh server record. -/
def emptyServer : Server := ⟨[], [], [], none, none⟩

/-- C6 (counterexample): a relevant `.py` file whose content matches no
pattern leaves the log empty — no log line is appended for it, refuting
"exactly one appended log line". -/
theorem C6_counterexample :
    (processFile pyOnlyParsers ⟨emptyServer, [], 0⟩ ⟨"m.py", "m.py", "x = 1", 5⟩).log = [] ∧
      (processFile pyOnlyParsers ⟨emptyServer, [], 0⟩ ⟨"m.py", "m.py", "x = 1", 5⟩).server =
        emptyServer ∧
      isRelevantFile "m.py" = true ∧
      parseByExtension pyOnlyParsers "m.py" "x = 1" = .ok ([], [], []) :=
  ⟨rfl, rfl, rfl, rfl⟩

/-- C6 (witness): the amended statement at the counterexample file. -/
theorem C6_witness :
    processFile pyOnlyParsers ⟨emptyServer, [], 0⟩ ⟨"m.py", "m.py", "x = 1", 5⟩ =
      ⟨emptyServer, [], 1⟩ :=
  C6_silent_file_amended pyOnlyParsers ⟨emptyServer, [], 0⟩ ⟨"m.py", "m.py", "x = 1", 5⟩
    rfl rfl

/-- C3: the README fallback is invoked iff the structured phase left all
three collections empty; and whenever the structured phase produced at
least one declaration of any kind, the fallback is not invoked. -/
theorem C3_fallback_iff_empty :
    ∀ (P : LangParsers) (server : Server) (files : List FileInfo)
      (readme : Option String),
      ((extractFromGithubRepo P server files readme).2 = true ↔
        ((structuredPhase P server files).server.tools = [] ∧
          (structuredPhase P server files).server.prompts = [] ∧
          (structuredPhase P server files).server.resources = [])) ∧
      (declCount server < declCount (structuredPhase P server files).server →
        (extractFromGithubRepo P server files readme).2 = false) := by
  intro P server files readme
  have hiff : (extractFromGithubRepo P server files readme).2 = true ↔
      ((structuredPhase P server files).server.tools = [] ∧
        (structuredPhase P server files).server.prompts = [] ∧
        (structuredPhase P server files).server.resources = []) := by
    unfold extractFromGithubRepo
    dsimp only
    split
    · next h =>
        simp only [Bool.and_eq_true, List.isEmpty_iff] at h
        exact iff_of_true rfl ⟨h.1.1, h.1.2, h.2⟩
    · next h =>
        refine iff_of_false (by simp) ?_
        rintro ⟨h1, h2, h3⟩
        exact h (by simp [h1, h2, h3])
  refine ⟨hiff, ?_⟩
  intro hlt
  cases hb : (extractFromGithubRepo P server files readme).2 with
  | false => rfl
  | true =>
    obtain ⟨h1, h2, h3⟩ := hiff.mp hb
    simp [declCount, h1, h2, h3] at hlt

/-- C3 (witness): a file producing one tool suppresses the fallback,
while an empty run invokes it. -/
theorem C3_witness :
    (extractFromGithubRepo pyOnlyParsers emptyServer
        [⟨"t.py", "t.py", "server.add_tool(\"t1\")", 9⟩] none).2 = false ∧
      (extractFromGithubRepo pyOnlyParsers emptyServer [] none).2 = true :=
  ⟨(C3_fallback_iff_empty pyOnlyParsers emptyServer
      [⟨"t.py", "t.py", "server.add_tool(\"t1\")", 9⟩] none).2 (by decide),
   ((C3_fallback_iff_empty pyOnlyParsers emptyServer [] none).1).mpr ⟨rfl, rfl, rfl⟩⟩

/-! ## Remote traversal (`_get_all_files_recursive`, lines 604-661)

The traversal walks the repository listing depth-first with
`max_depth = 3` and, per directory, wraps `repo.get_contents` in a retry
loop of `max_retries = 3` attempts: a `RateLimitExceededException`
increments the stats counter and, before each of the first two retries,
prints a wait message and sleeps `(2 ** retry) * 60` seconds; a plain
`GithubException` sleeps `2 ** retry` seconds; when the attempts are
exhausted the failure is only *printed* to the console (lines 649 and
655) and the subtree is skipped — nothing raises and nothing reaches the
extraction log.  The API is modelled by an oracle giving the response of
`repo.get_contents(path)` at each retry attempt; file contents arrive
decoded (the inner read/decode `try` of lines 623-636 has no failing case
in this model).  Sleeps are recorded: the unconditional pacing delays
(`1.0` and `0.5` seconds, lines 615 and 625) and the backoff waits. -/

/-- One entry of a `repo.get_contents` listing. -/
structure Entry where
  type : String
  name : String
  path : String
  content : String
  size : ℕ
deriving DecidableEq, Repr

/-- One `repo.get_contents(path)` response. -/
inductive FetchResult where
  | ok (entries : List Entry)
  | rateLimit
  | ghError
deriving DecidableEq, Repr

/-- The repository API oracle: the response for `repo.get_contents(path)`
at the given retry attempt of that directory's retry loop. -/
def Fetch : Type := String → ℕ → FetchResult

/-- Console messages printed by the traversal (lines 646, 649, 655). -/
inductive PrintMsg where
  | rateLimitWait (secs : ℕ)
  | maxRetriesExceeded (path : String)
  | accessError (path : String)
deriving DecidableEq, Repr

/-- Traversal state: collected files, the `rate_limit_hits` and
`total_files_processed` counters of `extraction_stats`, the pacing
sleeps, the backoff sleeps (in seconds), and the console output. -/
structure TravSt where
  files : List FileInfo
  rateLimitHits : ℕ
  totalProcessed : ℕ
  pacing : List ℚ
  backoff : List ℕ
  printed : List PrintMsg
deriving Repr

/-- The retry loop of lines 612-656 for one directory; `rLeft` counts
down from `max_retries = 3` while `retry` counts up from `0` (the
source's loop index), so the `retry < max_retries - 1` guard of lines
644 and 652 is `0 < rLeft`.  Returns the listing on success and `none`
when the attempts were exhausted (the subtree is abandoned). -/
def retryPhase (fetch : Fetch) (path : String) :
    ℕ → ℕ → TravSt → TravSt × Option (List Entry)
  | 0, _, st => (st, none)
  | rLeft + 1, retry, st =>
    let st1 : TravSt := ⟨st.files, st.rateLimitHits, st.totalProcessed,
      st.pacing ++ [1], st.backoff, st.printed⟩
    match fetch path retry with
    | .ok es => (st1, some es)
    | .rateLimit =>
      if 0 < rLeft then
        retryPhase fetch path rLeft (retry + 1)
          ⟨st1.files, st1.rateLimitHits + 1, st1.totalProcessed, st1.pacing,
           st1.backoff ++ [2 ^ retry * 60],
           st1.printed ++ [.rateLimitWait (2 ^ retry * 60)]⟩
      else
        (⟨st1.files, st1.rateLimitHits + 1, st1.totalProcessed, st1.pacing,
          st1.backoff, st1.printed ++ [.maxRetriesExceeded path]⟩, none)
    | .ghError =>
      if 0 < rLeft then
        retryPhase fetch path rLeft (retry + 1)
          ⟨st1.files, st1.rateLimitHits, st1.totalProcessed, st1.pacing,
           st1.backoff ++ [2 ^ retry], st1.printed⟩
      else
        (⟨st1.files, st1.rateLimitHits, st1.totalProcessed, st1.pacing, st1.backoff,
          st1.printed ++ [.accessError path]⟩, none)

/-- Collecting one relevant file (lines 622-633). -/
def fileStep (st : TravSt) (e : Entry) : TravSt :=
  ⟨st.files ++ [⟨e.name, e.path, e.content, e.size⟩], st.rateLimitHits,
   st.totalProcessed + 1, st.pacing ++ [1/2], st.backoff, st.printed⟩

/-- `_should_skip_directory` (lines 689-697). -/
def shouldSkipDirectory (dirname : String) : Bool :=
  (["node_modules", ".git", "build", "dist", "__pycache__", ".pytest_cache",
    "coverage", ".nyc_output", "target", "bin", "obj", "vendor", ".vscode",
    ".idea"].map (fun x => x.toList)).contains (lowerL dirname.toList)

/-- A pending traversal step: visit a directory (with its remaining depth
budget) or handle one listing entry. -/
inductive Work where
  | visit (path : String) (depthLeft : ℕ)
  | entry (e : Entry) (depthLeft : ℕ)

/-- `_traverse_directory` (lines 608-656) as a fuel-indexed worklist
recursion equivalent to the source's nested recursion: visiting a
directory runs the retry loop and on success queues its entries, in
listing order, ahead of the remaining work; a `file` entry passing
`_is_relevant_file` is collected; a `dir` entry not excluded by
`_should_skip_directory` queues a deeper visit.  `depthLeft` is
`max_depth + 1 - current_depth`, so a visit with `depthLeft = 0` is the
`current_depth > max_depth` early return of line 609. -/
def travGo (fetch : Fetch) : ℕ → List Work → TravSt → TravSt
  | 0, _, st => st
  | _ + 1, [], st => st
  | fuel + 1, Work.visit path dl :: ws, st =>
    match dl with
    | 0 => travGo fetch fuel ws st
    | dl' + 1 =>
      match retryPhase fetch path 3 0 st with
      | (st', none) => travGo fetch fuel ws st'
      | (st', some es) =>
        travGo fetch fuel (es.map (fun e => Work.entry e dl') ++ ws) st'
  | fuel + 1, Work.entry e dl :: ws, st =>
    if e.type == "file" && isRelevantFile e.name then
      travGo fetch fuel ws (fileStep st e)
    else if e.type == "dir" && !(shouldSkipDirectory e.name) then
      travGo fetch fuel (Work.visit e.path dl :: ws) st
    else travGo fetch fuel ws st

/-- `_get_all_files_recursive` with the default `max_depth = 3`
(lines 604-661): start at the base path with depth budget `4`. -/
def getAllFilesRecursive (fetch : Fetch) (fuel : ℕ) (basePath : String) : TravSt :=
  travGo fetch fuel [Work.visit basePath 4] ⟨[], 0, 0, [], [], []⟩

/-- The remote pipeline: traverse the repository, then run the per-file
extraction, the log attachment and the fallback decision on the
collected files (lines 73-140). -/
def extractFromGithubRepoRemote (P : LangParsers) (fetch : Fetch) (fuel : ℕ)
    (basePath : String) (server : Server) (readme : Option String) :
    (Server × Bool) × TravSt :=
  (extractFromGithubRepo P server (getAllFilesRecursive fetch fuel basePath).files readme,
   getAllFilesRecursive fetch fuel basePath)

/-- C9 (amended): a directory whose listing rate-limits on all three
attempts is abandoned without raising: the retry loop returns normally
with no listing, having recorded three rate-limit hits, the two
exponentially increasing backoff waits `60 = 2^0·60` and `120 = 2^1·60`
seconds, and console messages ending in the max-retries report; the
collected files are untouched and nothing is appended to any extraction
log (the traversal cannot write log entries at all — the failure is only
printed). -/
theorem C9_retry_backoff_amended (fetch : Fetch) (path : String) (st : TravSt)
    (h : ∀ i, i < 3 → fetch path i = FetchResult.rateLimit) :
    retryPhase fetch path 3 0 st =
      (⟨st.files, st.rateLimitHits + 3, st.totalProcessed, st.pacing ++ [1, 1, 1],
        st.backoff ++ [60, 120],
        st.printed ++ [.rateLimitWait 60, .rateLimitWait 120, .maxRetriesExceeded path]⟩,
       none) := by
  have h0 := h 0 (by norm_num)
  have h1 := h 1 (by norm_num)
  have h2 := h 2 (by norm_num)
  simp only [retryPhase, h0, h1, h2]
  norm_num [List.append_assoc]

/-- C9 (witness): the amended retry behaviour at a concretely
always-rate-limited oracle and the empty start state. -/
theorem C9_witness :
    retryPhase (fun _ _ => FetchResult.rateLimit) "sub" 3 0 ⟨[], 0, 0, [], [], []⟩ =
      (⟨[], 3, 0, [1, 1, 1], [60, 120],
        [.rateLimitWait 60, .rateLimitWait 120, .maxRetriesExceeded "sub"]⟩, none) :=
  C9_retry_backoff_amended (fun _ _ => FetchResult.rateLimit) "sub"
    ⟨[], 0, 0, [], [], []⟩ (fun _ _ => rfl)

/-- A repository whose root lists a subdirectory `sub` (whose listing
rate-limits on every attempt) followed by one Python file. -/
def cexFetch : Fetch := fun path _ =>
  if path == "" then
    FetchResult.ok [⟨"dir", "sub", "sub", "", 0⟩,
                    ⟨"file", "a.py", "a.py", "server.add_tool(\"t1\")", 22⟩]
  else FetchResult.rateLimit

/-- C9 (counterexample): with the persistently rate-limited subtree
`sub`, the overall operation completes — the retries, the exponential
waits and the max-retries report all happen and appear only in the
console output, the sibling file is still collected and parsed — but the
server's extraction log ends up containing exactly the extraction entry
for `a.py` and the confidence line: *no entry recording the rate-limit
failure is appended to the extraction log*, refuting the claim's final
conjunct (the code only `print`s the failure). -/
theorem C9_counterexample :
    (extractFromGithubRepoRemote pyOnlyParsers cexFetch 50 "" emptyServer none).2.printed =
        [.rateLimitWait 60, .rateLimitWait 120, .maxRetriesExceeded "sub"] ∧
      (extractFromGithubRepoRemote pyOnlyParsers cexFetch 50 "" emptyServer none).2.backoff =
        [60, 120] ∧
      (extractFromGithubRepoRemote pyOnlyParsers cexFetch 50 "" emptyServer none).2.files =
        [⟨"a.py", "a.py", "server.add_tool(\"t1\")", 22⟩] ∧
      (extractFromGithubRepoRemote pyOnlyParsers cexFetch 50 "" emptyServer none).1.1.extraction_log =
        some [.extractedFrom "a.py" 1 0 0, .confidenceLine] ∧
      (extractFromGithubRepoRemote pyOnlyParsers cexFetch 50 "" emptyServer none).1.1.tools =
        [⟨"t1", none, []⟩] :=
  ⟨by decide, by decide, by decide, by decide, by decide⟩

end MCPScraper
